import Mathlib

/-!
Verification of the plugin worker pool
(`packages/nx/src/project-graph/plugins/plugin-pool.ts`).

The host side of the pool is embedded as an explicit state machine over one
worker.  JavaScript's event loop processes each external event (an IPC
message, a child-process `exit` event, a host call into the pool) as one
atomic step; microtasks queued by a step (promise `.finally` callbacks,
resumption of `await Promise.all(...)`) drain before the next event, so they
are folded into the same step.  Promises are modelled as settle-once cells;
each cell additionally counts how many times its resolver/rejector was
invoked (`att`) and how many times the `.finally`-driven registry deletion
for it ran (`rem`), so the single-settlement bookkeeping of the source can
be stated exactly.  A thrown exception inside the shared message listener
(which would take down the host process) is modelled by a `crashed` marker
that freezes the state.
-/

namespace PluginPool

/-- Settlement state of one JavaScript promise. -/
inductive PromState where
  | pend : PromState
  | fulfilled (v : String) : PromState
  | rejected (e : String) : PromState
deriving DecidableEq, Repr

def PromState.isPend : PromState → Bool
  | .pend => true
  | _ => false

def PromState.isFulfilled : PromState → Bool
  | .fulfilled _ => true
  | _ => false

def PromState.isRejected : PromState → Bool
  | .rejected _ => true
  | _ => false

/-- Settle-once write to a promise (`resolve`/`reject` are no-ops once the
promise is settled). -/
def settlePS (c : PromState) (outcome : PromState) : PromState :=
  match c with
  | .pend => outcome
  | s => s

/-- One pending-promise cell of `registerPendingPromise`: its settlement
state, the number of resolver/rejector invocations it received, and the
number of times its `.finally(() => pending.delete(tx))` cleanup ran. -/
structure PCell where
  st : PromState
  att : Nat
  rem : Nat
deriving DecidableEq, Repr

/-- Fresh cell produced by `new Promise(...)`. -/
def dC : PCell := ⟨.pend, 0, 0⟩

/-- Invoking a cell's resolver/rejector: the `.finally` deletion fires
exactly when the call transitions the promise out of `pend`. -/
def settleCell (c : PCell) (outcome : PromState) : PCell :=
  match c.st with
  | .pend => ⟨outcome, c.att + 1, c.rem + 1⟩
  | s => ⟨s, c.att + 1, c.rem⟩

/-- Replace the element at index `i` (identity when out of range). -/
def modifyIdx : List PCell → Nat → (PCell → PCell) → List PCell
  | [], _, _ => []
  | c :: cs, 0, f => f c :: cs
  | c :: cs, n + 1, f => c :: modifyIdx cs n f

def settleAt (cells : List PCell) (i : Nat) (outcome : PromState) : List PCell :=
  modifyIdx cells i (fun c => settleCell c outcome)

/-- The three optional operations of a `RemotePlugin` handle. -/
inductive OpKind where
  | createNodes
  | createDependencies
  | processProjectGraph
deriving DecidableEq, Repr

def OpKind.opName : OpKind → String
  | .createNodes => "createNodes"
  | .createDependencies => "createDependencies"
  | .processProjectGraph => "processProjectGraph"

/-- Transaction identifier, as built at lines 128/142-143/156-157 of the
source: `pluginName + ':' + <operation> + ':' + performance.now()`. -/
def mkTx (plugin opname time : String) : String :=
  plugin ++ ":" ++ opname ++ ":" ++ time

/-- The `RemotePlugin` handle built from a successful `load-result`:
`createNodes` is present exactly when the reported pattern is truthy
(carrying that pattern); the other two operations are present exactly when
their boolean flags are set (an absent operation is `undefined`). -/
structure Handle where
  name : String
  createNodes : Option String
  createDependencies : Bool
  processProjectGraph : Bool
deriving DecidableEq, Repr

/-- JavaScript truthiness of the optional `createNodesPattern` string
(`undefined` and the empty string are falsy). -/
def jsTruthy : Option String → Bool
  | none => false
  | some str => !(str == "")

def buildHandle (name : String) (pat : Option String) (cd ppg : Bool) : Handle :=
  { name := name
    createNodes := if jsTruthy pat then pat else none
    createDependencies := cd
    processProjectGraph := ppg }

def hasOp (h : Handle) : OpKind → Bool
  | .createNodes => h.createNodes.isSome
  | .createDependencies => h.createDependencies
  | .processProjectGraph => h.processProjectGraph

/-- Progress of one `await Promise.all(...)` started by
`shutdownPluginWorker`: still waiting, resumed and `worker.kill('SIGINT')`
executed, or aborted because `Promise.all` rejected (the `await` threw and
the kill line was never reached). -/
inductive WaitStatus where
  | waiting
  | killed
  | aborted
deriving DecidableEq, Repr

def WaitStatus.isKilled : WaitStatus → Bool
  | .killed => true
  | _ => false

/-- One `shutdownPluginWorker` invocation: the cell indices of the
promises snapshotted by `Array.from(pendingPromises.values())`, and the
progress of its `await`. -/
structure Wait where
  snapshot : List Nat
  status : WaitStatus
deriving DecidableEq, Repr

/-- Observable side effects of the host code, in execution order. -/
inductive Act where
  | send (tx : String)
  | register (tx : String)
  | offExit
  | clearCache
  | awaitPend
  | delCleanup
deriving DecidableEq, Repr

/-- State of one worker's pool bookkeeping. -/
structure PoolState where
  pid : Nat
  /-- `some msg` once an exception escaped the shared message listener. -/
  crashed : Option String
  /-- The promise returned by `loadRemoteNxPlugin`. -/
  loadProm : PromState
  /-- The `RemotePlugin` the load promise was resolved with, if any. -/
  handle : Option Handle
  /-- The mutable `pluginName` local captured by the operation closures. -/
  pluginNameVar : Option String
  /-- This worker's entry in the module-level `pluginNames` map. -/
  pluginNamesEntry : Option String
  /-- `pendingPromises`: transaction id to cell index, in insertion order. -/
  registry : List (String × Nat)
  /-- Every promise ever created by `registerPendingPromise`. -/
  cells : List PCell
  /-- Whether `exitHandler` is still attached (`worker.off` not yet run). -/
  exitAttached : Bool
  /-- Whether `nxPluginCache.clear()` has run. -/
  cacheEmpty : Bool
  /-- Whether this worker's callback is still in `cleanupFunctions`. -/
  cleanupRegistered : Bool
  /-- Whether `worker.kill('SIGINT')` has executed. -/
  sigintSent : Bool
  /-- All `shutdownPluginWorker` invocations so far. -/
  waits : List Wait
  /-- Whether a `pending.set` ever replaced a live entry (id collision). -/
  overwrote : Bool
  log : List Act
deriving DecidableEq, Repr

/-- Map lookup `pending.get(tx)`, yielding the cell index. -/
def regLookup (r : List (String × Nat)) (tx : String) : Option Nat :=
  (r.find? (fun p => p.1 == tx)).map (fun p => p.2)

/-- Map write `pending.set(tx, ...)`: JavaScript `Map.set` updates an
existing key in place (keeping insertion order) and appends otherwise. -/
def regSet (r : List (String × Nat)) (tx : String) (i : Nat) : List (String × Nat) :=
  if r.any (fun p => p.1 == tx) then r.map (fun p => if p.1 == tx then (tx, i) else p)
  else r ++ [(tx, i)]

/-- Microtask drain after a step: each waiting `await Promise.all` resumes
as soon as every snapshotted promise is fulfilled (running the kill line)
or some snapshotted promise is rejected (the `await` throws and the kill
line is skipped). -/
def waitCheck (cells : List PCell) (w : Wait) : Wait :=
  match w.status with
  | .waiting =>
      if w.snapshot.any (fun i => (cells.getD i dC).st.isRejected) then
        ⟨w.snapshot, .aborted⟩
      else if w.snapshot.all (fun i => (cells.getD i dC).st.isFulfilled) then
        ⟨w.snapshot, .killed⟩
      else w
  | _ => w

def checkWaits (s : PoolState) : PoolState :=
  { s with
    waits := s.waits.map (waitCheck s.cells)
    sigintSent :=
      s.sigintSent || (s.waits.map (waitCheck s.cells)).any (fun w => w.status.isKilled) }

/-- Host invokes an operation on the handle.  Mirrors the operation
closures (lines 127-166) and `registerPendingPromise` (lines 224-247): the
transaction id is built from the captured `pluginName`, the `Promise`
executor runs `callback()` — which performs `worker.send(...)` — and only
afterwards does `pending.set(tx, ...)` run.  Invoking an operation the
handle does not expose is calling `undefined`. -/
def invokeOpStep (s : PoolState) (op : OpKind) (time : String) : PoolState :=
  match s.handle with
  | none => { s with crashed := some "TypeError: plugin operation is not a function" }
  | some h =>
      if hasOp h op then
        let tx := mkTx (s.pluginNameVar.getD "undefined") op.opName time
        let idx := s.cells.length
        let ow := s.registry.any (fun p => p.1 == tx)
        { s with
          cells := s.cells ++ [dC]
          registry := regSet s.registry tx idx
          overwrote := s.overwrote || ow
          log := s.log ++ [.send tx, .register tx] }
      else { s with crashed := some "TypeError: plugin operation is not a function" }

/-- `load-result` arrives (lines 117-171).  On success the handler stores
the name, resolves the load promise with a freshly built handle (a no-op
resolve if it is already settled); on failure it rejects with the reported
error. -/
def loadResultStep (s : PoolState) (success : Bool) (name : String)
    (pat : Option String) (cd ppg : Bool) (err : String) : PoolState :=
  if success then
    { s with
      pluginNameVar := some name
      pluginNamesEntry := some name
      handle := if s.loadProm.isPend then some (buildHandle name pat cd ppg) else s.handle
      loadProm := settlePS s.loadProm (.fulfilled "[RemotePlugin]") }
  else
    { s with loadProm := settlePS s.loadProm (.rejected err) }

/-- A `createNodesResult` / `createDependenciesResult` /
`processProjectGraphResult` envelope arrives (lines 173-196).  The handler
destructures `pending.get(tx)` — which throws a `TypeError` out of the
message listener when the transaction is unknown — and otherwise resolves
or rejects the pending promise; its `.finally` then deletes the entry. -/
def resultStep (s : PoolState) (tx : String) (success : Bool) (payload : String) : PoolState :=
  match regLookup s.registry tx with
  | none =>
      { s with crashed := some "TypeError: cannot destructure resolver of undefined" }
  | some i =>
      let outcome := if success then PromState.fulfilled payload else PromState.rejected payload
      let wasPend := (s.cells.getD i dC).st.isPend
      { s with
        cells := settleAt s.cells i outcome
        registry := if wasPend then s.registry.filter (fun p => !(p.1 == tx)) else s.registry }

def mkExitMsg (desc : String) (code : Int) : String :=
  "Plugin worker " ++ desc ++ " exited unexpectedly with code " ++ toString code

/-- `createWorkerExitHandler` body (lines 201-216): reject every promise
still in `pendingPromises`; each rejection that settles a promise triggers
its `.finally` deletion.  Returns the updated cells and the registry
entries that survive. -/
def exitDrain (msg : String) : List PCell → List (String × Nat) → List PCell × List (String × Nat)
  | cells, [] => (cells, [])
  | cells, (tx, i) :: rest =>
      let wasPend := (cells.getD i dC).st.isPend
      let cells1 := settleAt cells i (.rejected msg)
      let res := exitDrain msg cells1 rest
      (res.1, (if wasPend then [] else [(tx, i)]) ++ res.2)

/-- The worker's `exit` event.  The handler only runs while attached; it
never touches the load promise. -/
def exitStep (s : PoolState) (code : Int) : PoolState :=
  if s.exitAttached then
    let msg := mkExitMsg (s.pluginNamesEntry.getD (toString s.pid)) code
    let res := exitDrain msg s.cells s.registry
    { s with cells := res.1, registry := res.2 }
  else s

/-- The shutdown function returned by `loadRemoteNxPlugin` (lines 53-72)
together with the synchronous prefix of `shutdownPluginWorker`
(lines 75-91): detach the exit handler, clear the plugin cache, snapshot
the pending promises and start awaiting them, and remove the cleanup
callback.  The kill line runs later, when the `await` resumes. -/
def shutdownStep (s : PoolState) : PoolState :=
  { s with
    exitAttached := false
    cacheEmpty := true
    waits := s.waits ++ [⟨s.registry.map (fun p => p.2), .waiting⟩]
    cleanupRegistered := false
    log := s.log ++ [.offExit, .clearCache, .awaitPend, .delCleanup] }

/-- External events driving one worker's pool state. -/
inductive Ev where
  | invokeOp (op : OpKind) (time : String)
  | msgLoadResult (success : Bool) (name : String) (pat : Option String)
      (cd ppg : Bool) (err : String)
  | msgResult (op : OpKind) (tx : String) (success : Bool) (payload : String)
  | workerExit (code : Int)
  | invokeShutdown
deriving DecidableEq, Repr

/-- Dispatch of one event to its handler. -/
def stepCore (s : PoolState) : Ev → PoolState
  | .invokeOp op time => invokeOpStep s op time
  | .msgLoadResult success name pat cd ppg err =>
      loadResultStep s success name pat cd ppg err
  | .msgResult _op tx success payload => resultStep s tx success payload
  | .workerExit code => exitStep s code
  | .invokeShutdown => shutdownStep s

/-- One event-loop turn: dispatch the event, then drain microtasks.  After
an uncaught listener exception the host is gone and the state freezes. -/
def step (s : PoolState) (e : Ev) : PoolState :=
  if s.crashed.isSome then s
  else if (stepCore s e).crashed.isSome then stepCore s e
  else checkWaits (stepCore s e)

/-- State right after `loadRemoteNxPlugin` returns: worker forked, `load`
request sent, registries empty, exit handler attached, cleanup callback
registered. -/
def initState (pid : Nat) : PoolState :=
  { pid := pid
    crashed := none
    loadProm := .pend
    handle := none
    pluginNameVar := none
    pluginNamesEntry := none
    registry := []
    cells := []
    exitAttached := true
    cacheEmpty := false
    cleanupRegistered := true
    sigintSent := false
    waits := []
    overwrote := false
    log := [] }

def execT (pid : Nat) (es : List Ev) : PoolState :=
  es.foldl step (initState pid)

/-- Shorthand for a successful `load-result` for plugin `p` exposing all
three operations. -/
def loadOK (p : String) : Ev :=
  .msgLoadResult true p (some "**/*") true true ""

example :
    (execT 7 [loadOK "p", .invokeOp .createDependencies "1"]).registry =
      [("p:createDependencies:1", 0)] := by decide

example :
    ((execT 7 [loadOK "p", .invokeOp .createDependencies "1",
        .msgResult .createDependencies "p:createDependencies:1" true "deps"]).cells.getD 0 dC) =
      ⟨.fulfilled "deps", 1, 1⟩ := by decide

example :
    (execT 7 [.msgResult .createNodes "ghost" true "v"]).crashed.isSome = true := by decide

example :
    (execT 7 [loadOK "p", .invokeShutdown]).sigintSent = true := by decide

example :
    (execT 7 [loadOK "p", .invokeOp .createDependencies "1", .invokeShutdown,
        .msgResult .createDependencies "p:createDependencies:1" false "boom"]).sigintSent =
      false := by decide

example :
    (execT 7 [loadOK "p", .invokeOp .createDependencies "1",
        .workerExit 3]).cells.getD 0 dC =
      ⟨.rejected "Plugin worker p exited unexpectedly with code 3", 1, 1⟩ := by decide

/-! Structural lemmas about the building blocks. -/

@[simp] theorem modifyIdx_length (l : List PCell) (i : Nat) (f : PCell → PCell) :
    (modifyIdx l i f).length = l.length := by
  induction l generalizing i with
  | nil => rfl
  | cons c cs ih =>
      cases i with
      | zero => rfl
      | succ n => simpa [modifyIdx] using ih n

theorem getD_modifyIdx_self (l : List PCell) (i : Nat) (f : PCell → PCell)
    (h : i < l.length) (d : PCell) :
    (modifyIdx l i f).getD i d = f (l.getD i d) := by
  induction l generalizing i with
  | nil => simp at h
  | cons c cs ih =>
      cases i with
      | zero => rfl
      | succ n => simpa [modifyIdx] using ih n (by simpa using h)

theorem getD_modifyIdx_ne (l : List PCell) (i j : Nat) (f : PCell → PCell)
    (h : i ≠ j) (d : PCell) :
    (modifyIdx l i f).getD j d = l.getD j d := by
  induction l generalizing i j with
  | nil => rfl
  | cons c cs ih =>
      cases i with
      | zero =>
          cases j with
          | zero => exact absurd rfl h
          | succ m => rfl
      | succ n =>
          cases j with
          | zero => rfl
          | succ m => simpa [modifyIdx] using ih n m (by omega)

theorem modifyIdx_of_le (l : List PCell) (i : Nat) (f : PCell → PCell)
    (h : l.length ≤ i) : modifyIdx l i f = l := by
  induction l generalizing i with
  | nil => rfl
  | cons c cs ih =>
      cases i with
      | zero => simp at h
      | succ n => simpa [modifyIdx] using ih n (by simpa using h)

@[simp] theorem settleAt_length (cells : List PCell) (i : Nat) (o : PromState) :
    (settleAt cells i o).length = cells.length := by
  simp [settleAt]

theorem getD_settleAt_self (cells : List PCell) (i : Nat) (o : PromState)
    (h : i < cells.length) :
    (settleAt cells i o).getD i dC = settleCell (cells.getD i dC) o :=
  getD_modifyIdx_self cells i _ h dC

theorem getD_settleAt_ne (cells : List PCell) (i j : Nat) (o : PromState)
    (h : i ≠ j) : (settleAt cells i o).getD j dC = cells.getD j dC :=
  getD_modifyIdx_ne cells i j _ h dC

theorem settleCell_of_pend (c : PCell) (o : PromState) (h : c.st = .pend) :
    settleCell c o = ⟨o, c.att + 1, c.rem + 1⟩ := by
  simp [settleCell, h]

theorem settleCell_of_not_pend (c : PCell) (o : PromState) (h : c.st ≠ .pend) :
    settleCell c o = ⟨c.st, c.att + 1, c.rem⟩ := by
  cases hc : c.st with
  | pend => exact absurd hc h
  | fulfilled v => simp [settleCell, hc]
  | rejected e => simp [settleCell, hc]

theorem st_settleAt_of_not_pend (cells : List PCell) (i j : Nat) (o : PromState)
    (h : (cells.getD j dC).st ≠ .pend) :
    ((settleAt cells i o).getD j dC).st = (cells.getD j dC).st := by
  by_cases hij : i = j
  · subst hij
    by_cases hlen : i < cells.length
    · rw [getD_settleAt_self cells i o hlen, settleCell_of_not_pend _ _ h]
    · unfold settleAt
      rw [modifyIdx_of_le cells i _ (by omega)]
  · rw [getD_settleAt_ne cells i j o hij]

/-! `checkWaits` only touches `waits` and `sigintSent`. -/

@[simp] theorem checkWaits_cells (s : PoolState) : (checkWaits s).cells = s.cells := rfl

@[simp] theorem checkWaits_registry (s : PoolState) : (checkWaits s).registry = s.registry := rfl

@[simp] theorem checkWaits_crashed (s : PoolState) : (checkWaits s).crashed = s.crashed := rfl

@[simp] theorem checkWaits_log (s : PoolState) : (checkWaits s).log = s.log := rfl

@[simp] theorem checkWaits_handle (s : PoolState) : (checkWaits s).handle = s.handle := rfl

@[simp] theorem checkWaits_loadProm (s : PoolState) : (checkWaits s).loadProm = s.loadProm := rfl

@[simp] theorem checkWaits_exitAttached (s : PoolState) :
    (checkWaits s).exitAttached = s.exitAttached := rfl

@[simp] theorem checkWaits_cacheEmpty (s : PoolState) :
    (checkWaits s).cacheEmpty = s.cacheEmpty := rfl

@[simp] theorem checkWaits_cleanupRegistered (s : PoolState) :
    (checkWaits s).cleanupRegistered = s.cleanupRegistered := rfl

@[simp] theorem checkWaits_overwrote (s : PoolState) : (checkWaits s).overwrote = s.overwrote := rfl

@[simp] theorem checkWaits_pid (s : PoolState) : (checkWaits s).pid = s.pid := rfl

@[simp] theorem checkWaits_pluginNameVar (s : PoolState) :
    (checkWaits s).pluginNameVar = s.pluginNameVar := rfl

@[simp] theorem checkWaits_pluginNamesEntry (s : PoolState) :
    (checkWaits s).pluginNamesEntry = s.pluginNamesEntry := rfl

/-! `regLookup` / `regSet` interaction. -/

theorem regLookup_append_single (r : List (String × Nat)) (tx : String) (i : Nat)
    (h : r.any (fun p => p.1 == tx) = false) :
    regLookup (r ++ [(tx, i)]) tx = some i := by
  induction r with
  | nil => simp [regLookup]
  | cons p rest ih =>
      simp only [List.any_cons, Bool.or_eq_false_iff] at h
      simpa [regLookup, List.find?, h.1] using ih h.2

theorem regLookup_replace (r : List (String × Nat)) (tx : String) (i : Nat)
    (h : r.any (fun p => p.1 == tx) = true) :
    regLookup (r.map (fun p => if p.1 == tx then (tx, i) else p)) tx = some i := by
  induction r with
  | nil => simp at h
  | cons p rest ih =>
      by_cases hp : (p.1 == tx) = true
      · simp [regLookup, List.find?, hp]
      · simp only [List.any_cons, hp, Bool.false_or] at h
        simp only [Bool.not_eq_true] at hp
        simpa [regLookup, List.find?, hp] using ih h

theorem regLookup_regSet_self (r : List (String × Nat)) (tx : String) (i : Nat) :
    regLookup (regSet r tx i) tx = some i := by
  unfold regSet
  by_cases h : r.any (fun p => p.1 == tx) = true
  · simpa [h] using regLookup_replace r tx i h
  · simp only [Bool.not_eq_true] at h
    simpa [h] using regLookup_append_single r tx i h

theorem regSet_mem (r : List (String × Nat)) (tx : String) (i : Nat)
    (q : String × Nat) (hq : q ∈ regSet r tx i) : q ∈ r ∨ q = (tx, i) := by
  unfold regSet at hq
  by_cases h : r.any (fun p => p.1 == tx) = true
  · simp only [h, if_true, List.mem_map] at hq
    obtain ⟨p, hp, hfp⟩ := hq
    by_cases hptx : (p.1 == tx) = true
    · right; rw [← hfp]; simp [hptx]
    · left
      simp only [Bool.not_eq_true] at hptx
      rw [← hfp]; simpa [hptx] using hp
  · simp only [h, if_false, Bool.false_eq_true, List.mem_append, List.mem_singleton] at hq
    exact hq

theorem regSet_mem_of_ne (r : List (String × Nat)) (tx : String) (i : Nat)
    (q : String × Nat) (hq : q ∈ r) (hne : q.1 ≠ tx) : q ∈ regSet r tx i := by
  unfold regSet
  by_cases h : r.any (fun p => p.1 == tx) = true
  · simp only [h, if_true, List.mem_map]
    exact ⟨q, hq, by simp [hne]⟩
  · simp [h, hq]

theorem regSet_self_mem (r : List (String × Nat)) (tx : String) (i : Nat) :
    (tx, i) ∈ regSet r tx i := by
  unfold regSet
  by_cases h : r.any (fun p => p.1 == tx) = true
  · simp only [h, if_true]
    rw [List.any_eq_true] at h
    obtain ⟨p, hp, hptx⟩ := h
    rw [List.mem_map]
    exact ⟨p, hp, by simp [hptx]⟩
  · simp [h]

theorem regSet_keys (r : List (String × Nat)) (tx : String) (i : Nat) :
    (r.map (fun p => if p.1 == tx then (tx, i) else p)).map Prod.fst = r.map Prod.fst := by
  rw [List.map_map]
  apply List.map_congr_left
  intro p _
  by_cases hp : p.1 = tx
  · simp [hp]
  · simp [hp]

theorem nodup_map_inj {α β : Type} (f : α → β) (l : List α)
    (h : (l.map f).Nodup) :
    ∀ a ∈ l, ∀ b ∈ l, f a = f b → a = b := by
  intro a ha b hb hf
  exact List.inj_on_of_nodup_map h ha hb hf

theorem replace_snds_nodup (r : List (String × Nat)) (tx : String) (i : Nat)
    (hlt : ∀ p ∈ r, p.2 < i) (hs : (r.map Prod.snd).Nodup)
    (hk : (r.map Prod.fst).Nodup) :
    ((r.map (fun p => if p.1 == tx then (tx, i) else p)).map Prod.snd).Nodup := by
  induction r with
  | nil => simp
  | cons p rest ih =>
      simp only [List.map_cons, List.nodup_cons] at hs hk
      by_cases hp : p.1 = tx
      · have hrest : rest.map (fun q => if q.1 == tx then (tx, i) else q) = rest := by
          conv_rhs => rw [← List.map_id rest]
          apply List.map_congr_left
          intro q hq
          have hq1 : q.1 ≠ tx := by
            intro hqtx
            apply hk.1
            rw [← hp] at hqtx
            exact hqtx ▸ List.mem_map_of_mem Prod.fst hq
          simp [hq1]
        have hbeq : (p.1 == tx) = true := by simpa using hp
        simp only [List.map_cons, hbeq, if_true, List.nodup_cons, hrest]
        constructor
        · intro hmem
          obtain ⟨q, hq, hq2⟩ := List.mem_map.mp hmem
          exact absurd hq2 (by have := hlt q (by simp [hq]); omega)
        · exact hs.2
      · have hbeq : (p.1 == tx) = false := by simpa using hp
        simp only [List.map_cons, hbeq, Bool.false_eq_true, if_false, List.nodup_cons]
        constructor
        · intro hmem
          obtain ⟨q, hq, hq2⟩ := List.mem_map.mp hmem
          obtain ⟨q0, hq0, hfq⟩ := List.mem_map.mp hq
          by_cases hqtx : q0.1 = tx
          · rw [if_pos (by simpa using hqtx)] at hfq
            have hp2 : p.2 < i := hlt p (by simp)
            rw [← hfq] at hq2
            simp only at hq2
            omega
          · rw [if_neg (by simpa using hqtx)] at hfq
            subst hfq
            exact hs.1 (hq2 ▸ List.mem_map_of_mem Prod.snd hq0)
        · exact ih (fun q hq => hlt q (by simp [hq])) hs.2 hk.2

/-! `exitDrain` facts. -/

theorem exitDrain_length (msg : String) (entries : List (String × Nat)) (cells : List PCell) :
    (exitDrain msg cells entries).1.length = cells.length := by
  induction entries generalizing cells with
  | nil => rfl
  | cons p rest ih =>
      cases p with
      | mk tx i => simpa [exitDrain] using ih (settleAt cells i (.rejected msg))

theorem exitDrain_st_not_pend (msg : String) (entries : List (String × Nat))
    (cells : List PCell) (j : Nat) (h : (cells.getD j dC).st ≠ .pend) :
    ((exitDrain msg cells entries).1.getD j dC).st = (cells.getD j dC).st := by
  induction entries generalizing cells with
  | nil => rfl
  | cons p rest ih =>
      cases p with
      | mk tx i =>
          have h1 := st_settleAt_of_not_pend cells i j (.rejected msg) h
          have h2 : ((settleAt cells i (.rejected msg)).getD j dC).st ≠ .pend := by
            rw [h1]; exact h
          simpa [exitDrain, h1] using (ih (settleAt cells i (.rejected msg)) h2).trans h1

theorem exitDrain_spec (msg : String) (entries : List (String × Nat)) (cells : List PCell)
    (hwf : ∀ p ∈ entries, p.2 < cells.length ∧ (cells.getD p.2 dC).st = .pend)
    (hnd : (entries.map Prod.snd).Nodup) :
    (exitDrain msg cells entries).2 = []
    ∧ (∀ p ∈ entries, (exitDrain msg cells entries).1.getD p.2 dC =
        ⟨.rejected msg, (cells.getD p.2 dC).att + 1, (cells.getD p.2 dC).rem + 1⟩)
    ∧ (∀ j, (∀ p ∈ entries, p.2 ≠ j) →
        (exitDrain msg cells entries).1.getD j dC = cells.getD j dC) := by
  induction entries generalizing cells with
  | nil => exact ⟨rfl, by simp, fun j _ => rfl⟩
  | cons q rest ih =>
      cases q with
      | mk tx i =>
          obtain ⟨hi, hpend⟩ := hwf (tx, i) (by simp)
          simp only [List.map_cons, List.nodup_cons] at hnd
          have hinotin : ∀ p ∈ rest, p.2 ≠ i := by
            intro p hp hpi
            exact hnd.1 (hpi ▸ List.mem_map_of_mem Prod.snd hp)
          have hcell1 : (settleAt cells i (.rejected msg)).getD i dC =
              ⟨.rejected msg, (cells.getD i dC).att + 1, (cells.getD i dC).rem + 1⟩ := by
            rw [getD_settleAt_self cells i _ hi, settleCell_of_pend _ _ hpend]
          have hrest : ∀ p ∈ rest, p.2 < (settleAt cells i (.rejected msg)).length ∧
              ((settleAt cells i (.rejected msg)).getD p.2 dC).st = .pend := by
            intro p hp
            obtain ⟨hb, hpd⟩ := hwf p (by simp [hp])
            refine ⟨by simpa using hb, ?_⟩
            rw [getD_settleAt_ne cells i p.2 _ (fun hh => hinotin p hp hh.symm)]
            exact hpd
          obtain ⟨ihkeep, ihset, ihother⟩ := ih (settleAt cells i (.rejected msg)) hrest hnd.2
          have hwp : ((cells.getD i dC).st.isPend) = true := by
            rw [show (cells.getD i dC).st = PromState.pend from hpend]; rfl
          refine ⟨?_, ?_, ?_⟩
          · simp only [exitDrain, hwp, if_true, List.nil_append]
            exact ihkeep
          · intro p hp
            rcases List.mem_cons.mp hp with hhead | htail
            · subst hhead
              simp only [exitDrain]
              rw [ihother i (fun p' hp' => hinotin p' hp'), hcell1]
            · simp only [exitDrain]
              rw [ihset p htail,
                getD_settleAt_ne cells i p.2 _ (fun hh => hinotin p htail hh.symm)]
          · intro j hj
            simp only [exitDrain]
            rw [ihother j (fun p hp => hj p (by simp [hp])),
              getD_settleAt_ne cells i j _ (fun hh => hj (tx, i) (by simp) hh)]

/-! Small facts about promise states. -/

theorem settlePS_of_pend (o : PromState) : settlePS .pend o = o := rfl

theorem settlePS_of_not_pend (c o : PromState) (h : c ≠ .pend) : settlePS c o = c := by
  cases c with
  | pend => exact absurd rfl h
  | fulfilled v => rfl
  | rejected e => rfl

theorem isFulfilled_ne_pend (c : PromState) (h : c.isFulfilled = true) : c ≠ .pend := by
  cases c <;> simp_all [PromState.isFulfilled]

theorem regLookup_mem (r : List (String × Nat)) (tx : String) (i : Nat)
    (h : regLookup r tx = some i) : (tx, i) ∈ r := by
  unfold regLookup at h
  cases hf : r.find? (fun p => p.1 == tx) with
  | none => rw [hf] at h; simp at h
  | some p =>
      rw [hf] at h
      have h2 : p.2 = i := by simpa using h
      have hp1 : (p.1 == tx) = true := by
        have hps := List.find?_some hf
        simpa using hps
      have hmem : p ∈ r := List.mem_of_find?_eq_some hf
      have : p = (tx, i) := by
        cases p with
        | mk a b => simp_all [beq_iff_eq.mp hp1]
      exact this ▸ hmem

theorem keys_inj (r : List (String × Nat)) (hk : (r.map Prod.fst).Nodup)
    (tx : String) (i j : Nat) (hi : (tx, i) ∈ r) (hj : (tx, j) ∈ r) : i = j := by
  have := nodup_map_inj Prod.fst r hk (tx, i) hi (tx, j) hj rfl
  simpa using congrArg Prod.snd this

theorem snds_inj (r : List (String × Nat)) (hs : (r.map Prod.snd).Nodup)
    (a b : String) (i : Nat) (ha : (a, i) ∈ r) (hb : (b, i) ∈ r) : a = b := by
  have := nodup_map_inj Prod.snd r hs (a, i) ha (b, i) hb rfl
  simpa using congrArg Prod.fst this

/-! The reachable-state invariant. -/

/-- Registry well-formedness: every registered transaction points to an
in-range, still-pending promise cell, and neither transaction ids nor cell
indices repeat among live entries. -/
def RegWF (s : PoolState) : Prop :=
  (∀ p ∈ s.registry, p.2 < s.cells.length ∧ (s.cells.getD p.2 dC).st = .pend)
  ∧ (s.registry.map Prod.fst).Nodup
  ∧ (s.registry.map Prod.snd).Nodup

/-- Cell accounting (meaningful while no `pending.set` ever overwrote a
live entry): a registered cell is untouched since creation, and an
unregistered cell has been settled by exactly one resolver/rejector call
and deleted from the registry exactly once. -/
def CellWF (s : PoolState) : Prop :=
  s.overwrote = false →
  ∀ i, i < s.cells.length →
    ((∃ tx, (tx, i) ∈ s.registry) → s.cells.getD i dC = dC)
    ∧ ((∀ tx, (tx, i) ∉ s.registry) →
        (s.cells.getD i dC).st ≠ .pend
        ∧ (s.cells.getD i dC).att = 1 ∧ (s.cells.getD i dC).rem = 1)

/-- Shutdown-wait well-formedness: snapshots are in range, a resumed
`await Promise.all` that reached the kill line had all its promises
fulfilled, and the SIGINT flag implies some shutdown reached the kill
line. -/
def WaitWF (s : PoolState) : Prop :=
  (∀ w ∈ s.waits,
    (∀ i ∈ w.snapshot, i < s.cells.length)
    ∧ (w.status = .killed → ∀ i ∈ w.snapshot, (s.cells.getD i dC).st.isFulfilled = true))
  ∧ (s.sigintSent = true → ∃ w ∈ s.waits, w.status = .killed)

/-- The handle only exists once the load promise has settled. -/
def LoadWF (s : PoolState) : Prop := s.handle.isSome = true → s.loadProm ≠ .pend

def Inv (s : PoolState) : Prop := RegWF s ∧ CellWF s ∧ WaitWF s ∧ LoadWF s

theorem waitCheck_snapshot (cells : List PCell) (w : Wait) :
    (waitCheck cells w).snapshot = w.snapshot := by
  obtain ⟨snap, st⟩ := w
  cases st with
  | waiting =>
      simp only [waitCheck]
      by_cases h1 : (snap.any fun i => (cells.getD i dC).st.isRejected) = true
      · rw [if_pos h1]
      · rw [if_neg h1]
        by_cases h2 : (snap.all fun i => (cells.getD i dC).st.isFulfilled) = true
        · rw [if_pos h2]
        · rw [if_neg h2]
  | killed => rfl
  | aborted => rfl

theorem waitCheck_of_killed (cells : List PCell) (w : Wait) (h : w.status = .killed) :
    waitCheck cells w = w := by
  obtain ⟨snap, st⟩ := w
  cases st with
  | waiting => simp at h
  | killed => rfl
  | aborted => simp at h

theorem waitCheck_killed_cases (cells : List PCell) (w : Wait)
    (h : (waitCheck cells w).status = .killed) :
    w.status = .killed
    ∨ (w.snapshot.all (fun i => (cells.getD i dC).st.isFulfilled) = true) := by
  obtain ⟨snap, st⟩ := w
  cases st with
  | waiting =>
      right
      simp only [waitCheck] at h
      by_cases h1 : snap.any (fun i => (cells.getD i dC).st.isRejected) = true
      · rw [if_pos h1] at h; simp at h
      · rw [if_neg h1] at h
        by_cases h2 : snap.all (fun i => (cells.getD i dC).st.isFulfilled) = true
        · exact h2
        · rw [if_neg h2] at h; simp at h
  | killed => exact Or.inl rfl
  | aborted => simp [waitCheck] at h

theorem checkWaits_inv (s : PoolState) (h : Inv s) : Inv (checkWaits s) := by
  obtain ⟨hr, hc, ⟨hw, hsig⟩, hl⟩ := h
  refine ⟨hr, hc, ⟨?_, ?_⟩, hl⟩
  · intro w' hw'
    rw [show (checkWaits s).waits = s.waits.map (waitCheck s.cells) from rfl] at hw'
    obtain ⟨w, hwmem, hweq⟩ := List.mem_map.mp hw'
    subst hweq
    rw [checkWaits_cells, waitCheck_snapshot]
    refine ⟨(hw w hwmem).1, ?_⟩
    intro hk i hi
    rcases waitCheck_killed_cases s.cells w hk with hold | hall
    · exact (hw w hwmem).2 hold i hi
    · exact List.all_eq_true.mp hall i hi
  · intro hsg
    rw [show (checkWaits s).sigintSent =
        (s.sigintSent || (s.waits.map (waitCheck s.cells)).any (fun w => w.status.isKilled))
      from rfl] at hsg
    rw [show (checkWaits s).waits = s.waits.map (waitCheck s.cells) from rfl]
    rcases Bool.or_eq_true_iff.mp hsg with hs1 | hs2
    · obtain ⟨w, hwmem, hwk⟩ := hsig hs1
      exact ⟨waitCheck s.cells w, List.mem_map_of_mem _ hwmem,
        by rw [waitCheck_of_killed s.cells w hwk]; exact hwk⟩
    · obtain ⟨w', hw', hwk⟩ := List.any_eq_true.mp hs2
      refine ⟨w', hw', ?_⟩
      cases hst : w'.status <;> simp_all [WaitStatus.isKilled]

/-! Shape lemmas unfolding each event handler in its distinct cases. -/

theorem settlePS_ne_pend (c o : PromState) (ho : o ≠ .pend) : settlePS c o ≠ .pend := by
  cases c with
  | pend => exact ho
  | fulfilled v => simp [settlePS]
  | rejected e => simp [settlePS]

theorem invokeOpStep_no_handle (s : PoolState) (op : OpKind) (time : String)
    (hh : s.handle = none) :
    invokeOpStep s op time =
      { s with crashed := some "TypeError: plugin operation is not a function" } := by
  unfold invokeOpStep
  rw [hh]

theorem invokeOpStep_absent (s : PoolState) (op : OpKind) (time : String) (hd : Handle)
    (hh : s.handle = some hd) (hop : hasOp hd op = false) :
    invokeOpStep s op time =
      { s with crashed := some "TypeError: plugin operation is not a function" } := by
  unfold invokeOpStep
  rw [hh]
  simp [hop]

theorem invokeOpStep_present (s : PoolState) (op : OpKind) (time : String) (hd : Handle)
    (hh : s.handle = some hd) (hop : hasOp hd op = true) :
    invokeOpStep s op time =
      { s with
        cells := s.cells ++ [dC]
        registry := regSet s.registry
          (mkTx (s.pluginNameVar.getD "undefined") op.opName time) s.cells.length
        overwrote := s.overwrote ||
          s.registry.any
            (fun p => p.1 == mkTx (s.pluginNameVar.getD "undefined") op.opName time)
        log := s.log ++
          [.send (mkTx (s.pluginNameVar.getD "undefined") op.opName time),
           .register (mkTx (s.pluginNameVar.getD "undefined") op.opName time)] } := by
  unfold invokeOpStep
  rw [hh]
  simp [hop]

theorem resultStep_unknown (s : PoolState) (tx : String) (success : Bool) (payload : String)
    (hf : regLookup s.registry tx = none) :
    resultStep s tx success payload =
      { s with crashed := some "TypeError: cannot destructure resolver of undefined" } := by
  unfold resultStep
  rw [hf]

theorem resultStep_found (s : PoolState) (tx : String) (success : Bool) (payload : String)
    (i : Nat) (hf : regLookup s.registry tx = some i) :
    resultStep s tx success payload =
      { s with
        cells := settleAt s.cells i
          (if success then PromState.fulfilled payload else PromState.rejected payload)
        registry := if (s.cells.getD i dC).st.isPend then
            s.registry.filter (fun p => !(p.1 == tx))
          else s.registry } := by
  unfold resultStep
  rw [hf]

theorem exitStep_detached (s : PoolState) (code : Int) (hx : s.exitAttached = false) :
    exitStep s code = s := by
  unfold exitStep
  rw [hx]
  simp

theorem exitStep_attached (s : PoolState) (code : Int) (hx : s.exitAttached = true) :
    exitStep s code =
      { s with
        cells := (exitDrain (mkExitMsg (s.pluginNamesEntry.getD (toString s.pid)) code)
          s.cells s.registry).1
        registry := (exitDrain (mkExitMsg (s.pluginNamesEntry.getD (toString s.pid)) code)
          s.cells s.registry).2 } := by
  unfold exitStep
  rw [hx]
  simp

/-! Invariant preservation, one lemma per handler. -/

theorem loadResultStep_inv (s : PoolState) (success : Bool) (name : String)
    (pat : Option String) (cd ppg : Bool) (err : String) (h : Inv s) :
    Inv (loadResultStep s success name pat cd ppg err) := by
  obtain ⟨hr, hc, hw, _hl⟩ := h
  unfold loadResultStep
  by_cases hs : success = true
  · rw [if_pos hs]
    exact ⟨hr, hc, hw, fun _ => settlePS_ne_pend _ _ (by simp)⟩
  · rw [if_neg hs]
    exact ⟨hr, hc, hw, fun _ => settlePS_ne_pend _ _ (by simp)⟩

theorem shutdownStep_inv (s : PoolState) (h : Inv s) : Inv (shutdownStep s) := by
  obtain ⟨hr, hc, ⟨hw, hsig⟩, hl⟩ := h
  refine ⟨hr, hc, ⟨?_, ?_⟩, hl⟩
  · intro w hwmem
    rw [show (shutdownStep s).waits =
        s.waits ++ [⟨s.registry.map (fun p => p.2), .waiting⟩] from rfl] at hwmem
    rcases List.mem_append.mp hwmem with hold | hnew
    · exact hw w hold
    · rw [List.mem_singleton.mp hnew]
      refine ⟨?_, ?_⟩
      · intro i hi
        obtain ⟨p, hp, hpi⟩ := List.mem_map.mp hi
        exact hpi ▸ (hr.1 p hp).1
      · intro hk
        simp at hk
  · intro hsg
    obtain ⟨w, hwmem, hwk⟩ := hsig hsg
    exact ⟨w, List.mem_append_left _ hwmem, hwk⟩

theorem invokeOpStep_inv (s : PoolState) (op : OpKind) (time : String) (h : Inv s) :
    Inv (invokeOpStep s op time) := by
  obtain ⟨⟨hrb, hrk, hrs⟩, hc, ⟨hw, hsig⟩, hl⟩ := h
  cases hh : s.handle with
  | none => rw [invokeOpStep_no_handle s op time hh]; exact ⟨⟨hrb, hrk, hrs⟩, hc, ⟨hw, hsig⟩, hl⟩
  | some hd =>
      by_cases hop : hasOp hd op = true
      · rw [invokeOpStep_present s op time hd hh hop]
        refine ⟨⟨?_, ?_, ?_⟩, ?_, ⟨?_, ?_⟩, hl⟩
        · -- bounds and pending for every registry entry
          intro p hp
          rcases regSet_mem _ _ _ p hp with hmem | heq
          · obtain ⟨hlt, hpend⟩ := hrb p hmem
            refine ⟨by simp; omega, ?_⟩
            rw [List.getD_append _ _ dC p.2 hlt]
            exact hpend
          · subst heq
            refine ⟨by simp, ?_⟩
            rw [List.getD_append_right _ _ dC s.cells.length (le_refl _)]
            simp [dC]
        · -- keys nodup
          unfold regSet
          by_cases hany : (s.registry.any
              (fun p => p.1 == mkTx (s.pluginNameVar.getD "undefined") op.opName time)) = true
          · rw [if_pos hany, regSet_keys]
            exact hrk
          · rw [if_neg hany]
            rw [List.map_append]
            rw [List.nodup_append]
            refine ⟨hrk, by simp, ?_⟩
            intro a ha hb
            simp only [List.map_cons, List.map_nil, List.mem_singleton] at hb
            obtain ⟨p, hp, hpa⟩ := List.mem_map.mp ha
            have hany' : ∀ x : Nat,
                (mkTx (s.pluginNameVar.getD "undefined") op.opName time, x) ∉ s.registry := by
              simpa using hany
            have hpp : p = (mkTx (s.pluginNameVar.getD "undefined") op.opName time, p.2) := by
              cases p with
              | mk a' b' =>
                  simp only at hpa
                  simp only [Prod.mk.injEq, and_true]
                  rw [hpa]
                  exact hb
            exact hany' p.2 (hpp ▸ hp)
        · -- snds nodup
          unfold regSet
          by_cases hany : (s.registry.any
              (fun p => p.1 == mkTx (s.pluginNameVar.getD "undefined") op.opName time)) = true
          · rw [if_pos hany]
            exact replace_snds_nodup s.registry _ s.cells.length
              (fun p hp => (hrb p hp).1) hrs hrk
          · rw [if_neg hany]
            rw [List.map_append]
            rw [List.nodup_append]
            refine ⟨hrs, by simp, ?_⟩
            intro a ha hb
            simp only [List.map_cons, List.map_nil, List.mem_singleton] at hb
            obtain ⟨p, hp, hpa⟩ := List.mem_map.mp ha
            have := (hrb p hp).1
            omega
        · -- cell accounting
          intro how i hi
          have hparts : s.overwrote = false ∧ (s.registry.any
              (fun p => p.1 == mkTx (s.pluginNameVar.getD "undefined") op.opName time)) = false := by
            simpa using Bool.or_eq_false_iff.mp how
          have hreg : regSet s.registry
              (mkTx (s.pluginNameVar.getD "undefined") op.opName time) s.cells.length =
              s.registry ++
                [(mkTx (s.pluginNameVar.getD "undefined") op.opName time, s.cells.length)] := by
            unfold regSet
            rw [if_neg (by simp [hparts.2])]
          simp only [List.length_append, List.length_cons, List.length_nil] at hi
          rw [hreg]
          by_cases hii : i = s.cells.length
          · subst hii
            constructor
            · intro _
              rw [List.getD_append_right _ _ dC s.cells.length (le_refl _)]
              simp
            · intro hno
              exact absurd (List.mem_append_right s.registry (by simp))
                (hno (mkTx (s.pluginNameVar.getD "undefined") op.opName time))
          · have hilt : i < s.cells.length := by omega
            rw [List.getD_append _ _ dC i hilt]
            constructor
            · intro hex
              obtain ⟨tx', hmem'⟩ := hex
              rcases List.mem_append.mp hmem' with hold | hnew
              · exact (hc hparts.1 i hilt).1 ⟨tx', hold⟩
              · simp only [List.mem_singleton, Prod.mk.injEq] at hnew
                omega
            · intro hno
              refine (hc hparts.1 i hilt).2 ?_
              intro tx' hmem'
              exact hno tx' (List.mem_append_left _ hmem')
        · -- waits
          intro w hwmem
          obtain ⟨hbnd, hkf⟩ := hw w hwmem
          constructor
          · intro i hi
            have := hbnd i hi
            simp
            omega
          · intro hk i hi
            have hlt := hbnd i hi
            rw [List.getD_append _ _ dC i hlt]
            exact hkf hk i hi
        · exact hsig
      · rw [invokeOpStep_absent s op time hd hh (by simpa using hop)]
        exact ⟨⟨hrb, hrk, hrs⟩, hc, ⟨hw, hsig⟩, hl⟩

theorem resultStep_inv (s : PoolState) (tx : String) (success : Bool) (payload : String)
    (h : Inv s) : Inv (resultStep s tx success payload) := by
  obtain ⟨⟨hrb, hrk, hrs⟩, hc, ⟨hw, hsig⟩, hl⟩ := h
  cases hf : regLookup s.registry tx with
  | none =>
      rw [resultStep_unknown s tx success payload hf]
      exact ⟨⟨hrb, hrk, hrs⟩, hc, ⟨hw, hsig⟩, hl⟩
  | some i =>
      have hmem0 : (tx, i) ∈ s.registry := regLookup_mem _ _ _ hf
      obtain ⟨hi, hpend⟩ := hrb (tx, i) hmem0
      simp only at hi hpend
      have hwp : (s.cells.getD i dC).st.isPend = true := by rw [hpend]; rfl
      have hout : (if success then PromState.fulfilled payload
          else PromState.rejected payload) ≠ .pend := by
        cases success <;> simp
      rw [resultStep_found s tx success payload i hf]
      rw [if_pos hwp]
      refine ⟨⟨?_, ?_, ?_⟩, ?_, ⟨?_, ?_⟩, hl⟩
      · -- bounds and pending
        intro p hp
        obtain ⟨hpmem, hptx⟩ := List.mem_filter.mp hp
        have hptx' : p.1 ≠ tx := by simpa using hptx
        obtain ⟨hplt, hppend⟩ := hrb p hpmem
        have hpi : p.2 ≠ i := by
          intro hpi
          apply hptx'
          exact snds_inj s.registry hrs p.1 tx i (by
            cases p with
            | mk a b => simp only at hpi; rw [← hpi]; exact hpmem) hmem0
        refine ⟨by simpa using hplt, ?_⟩
        rw [getD_settleAt_ne s.cells i p.2 _ (fun hh => hpi hh.symm)]
        exact hppend
      · exact (hrk.sublist ((List.filter_sublist s.registry).map Prod.fst))
      · exact (hrs.sublist ((List.filter_sublist s.registry).map Prod.snd))
      · -- cell accounting
        intro how j hj
        simp only [settleAt_length] at hj
        by_cases hji : j = i
        · subst hji
          constructor
          · intro hex
            obtain ⟨tx', hmem'⟩ := hex
            obtain ⟨hmem'', hne''⟩ := List.mem_filter.mp hmem'
            have : tx' = tx := snds_inj s.registry hrs tx' tx j hmem'' hmem0
            simp [this] at hne''
          · intro _
            have hdc : s.cells.getD j dC = dC := (hc how j hj).1 ⟨tx, hmem0⟩
            rw [getD_settleAt_self s.cells j _ hj, hdc,
              settleCell_of_pend dC _ (by rfl)]
            exact ⟨hout, rfl, rfl⟩
        · rw [getD_settleAt_ne s.cells i j _ (fun hh => hji hh.symm)]
          constructor
          · intro hex
            obtain ⟨tx', hmem'⟩ := hex
            exact (hc how j hj).1 ⟨tx', (List.mem_filter.mp hmem').1⟩
          · intro hno
            refine (hc how j hj).2 ?_
            intro tx' hmem'
            have htx' : tx' ≠ tx := by
              intro hhe
              subst hhe
              exact hji (keys_inj s.registry hrk tx' j i hmem' hmem0)
            exact hno tx' (List.mem_filter.mpr ⟨hmem', by simpa using htx'⟩)
      · -- waits
        intro w hwmem
        obtain ⟨hbnd, hkf⟩ := hw w hwmem
        constructor
        · intro k hk
          simpa using hbnd k hk
        · intro hk k hkmem
          have hful := hkf hk k hkmem
          have hnp : (s.cells.getD k dC).st ≠ .pend := isFulfilled_ne_pend _ hful
          rw [st_settleAt_of_not_pend s.cells i k _ hnp]
          exact hful
      · exact hsig

theorem exitStep_inv (s : PoolState) (code : Int) (h : Inv s) : Inv (exitStep s code) := by
  obtain ⟨⟨hrb, hrk, hrs⟩, hc, ⟨hw, hsig⟩, hl⟩ := h
  by_cases hx : s.exitAttached = true
  · rw [exitStep_attached s code hx]
    obtain ⟨hkeep, hset, hother⟩ :=
      exitDrain_spec (mkExitMsg (s.pluginNamesEntry.getD (toString s.pid)) code)
        s.registry s.cells hrb hrs
    refine ⟨⟨?_, ?_, ?_⟩, ?_, ⟨?_, ?_⟩, hl⟩
    · intro p hp
      rw [hkeep] at hp
      simp at hp
    · rw [hkeep]; simp
    · rw [hkeep]; simp
    · -- cell accounting: every cell is now settled exactly once
      intro how j hj
      rw [exitDrain_length] at hj
      constructor
      · intro hex
        obtain ⟨tx', hmem'⟩ := hex
        rw [hkeep] at hmem'
        simp at hmem'
      · intro _
        by_cases hreg : ∃ tx', (tx', j) ∈ s.registry
        · obtain ⟨tx', hmem'⟩ := hreg
          have hdc : s.cells.getD j dC = dC := (hc how j hj).1 ⟨tx', hmem'⟩
          have := hset (tx', j) hmem'
          simp only at this
          rw [this, hdc]
          exact ⟨by simp, rfl, rfl⟩
        · have hno : ∀ p ∈ s.registry, p.2 ≠ j := by
            intro p hp hpj
            exact hreg ⟨p.1, by
              cases p with
              | mk a b => simp only at hpj; rw [← hpj]; exact hp⟩
          rw [hother j hno]
          refine (hc how j hj).2 ?_
          intro tx' hmem'
          exact hreg ⟨tx', hmem'⟩
    · -- waits
      intro w hwmem
      obtain ⟨hbnd, hkf⟩ := hw w hwmem
      constructor
      · intro k hk
        rw [exitDrain_length]
        exact hbnd k hk
      · intro hk k hkmem
        have hful := hkf hk k hkmem
        have hnp : (s.cells.getD k dC).st ≠ .pend := isFulfilled_ne_pend _ hful
        rw [exitDrain_st_not_pend _ _ _ _ hnp]
        exact hful
    · exact hsig
  · rw [exitStep_detached s code (by simpa using hx)]
    exact ⟨⟨hrb, hrk, hrs⟩, hc, ⟨hw, hsig⟩, hl⟩

theorem stepCore_inv (s : PoolState) (e : Ev) (h : Inv s) : Inv (stepCore s e) := by
  cases e with
  | invokeOp op time => exact invokeOpStep_inv s op time h
  | msgLoadResult success name pat cd ppg err =>
      exact loadResultStep_inv s success name pat cd ppg err h
  | msgResult op tx success payload => exact resultStep_inv s tx success payload h
  | workerExit code => exact exitStep_inv s code h
  | invokeShutdown => exact shutdownStep_inv s h

theorem step_inv (s : PoolState) (e : Ev) (h : Inv s) : Inv (step s e) := by
  unfold step
  by_cases hcr : s.crashed.isSome = true
  · rw [if_pos hcr]; exact h
  · rw [if_neg hcr]
    by_cases hc1 : (stepCore s e).crashed.isSome = true
    · rw [if_pos hc1]; exact stepCore_inv s e h
    · rw [if_neg hc1]; exact checkWaits_inv _ (stepCore_inv s e h)

theorem inv_foldl (es : List Ev) : ∀ s, Inv s → Inv (es.foldl step s) := by
  induction es with
  | nil => intro s h; exact h
  | cons e rest ih => intro s h; exact ih (step s e) (step_inv s e h)

theorem inv_init (pid : Nat) : Inv (initState pid) := by
  refine ⟨⟨?_, ?_, ?_⟩, ?_, ⟨?_, ?_⟩, ?_⟩
  · intro p hp; simp [initState] at hp
  · simp [initState]
  · simp [initState]
  · intro _ i hi; simp [initState] at hi
  · intro w hwmem; simp [initState] at hwmem
  · intro hsg; simp [initState] at hsg
  · intro hh; simp [initState] at hh

theorem inv_exec (pid : Nat) (es : List Ev) : Inv (execT pid es) :=
  inv_foldl es _ (inv_init pid)

/-! Transaction-identifier injectivity. -/

theorem mkTx_data (p o t : String) :
    (mkTx p o t).data = p.data ++ ':' :: (o.data ++ ':' :: t.data) := by
  simp [mkTx, String.data_append]

theorem colon_split (a : List Char) :
    ∀ (b r₁ r₂ : List Char), (∀ c ∈ a, c ≠ ':') → (∀ c ∈ b, c ≠ ':') →
      a ++ ':' :: r₁ = b ++ ':' :: r₂ → a = b ∧ r₁ = r₂ := by
  induction a with
  | nil =>
      intro b r₁ r₂ _ hb heq
      cases b with
      | nil => simpa using heq
      | cons x xs =>
          simp only [List.nil_append, List.cons_append, List.cons.injEq] at heq
          exact absurd heq.1.symm (hb x (by simp))
  | cons x xs ih =>
      intro b r₁ r₂ ha hb heq
      cases b with
      | nil =>
          simp only [List.nil_append, List.cons_append, List.cons.injEq] at heq
          exact absurd heq.1 (ha x (by simp))
      | cons y ys =>
          simp only [List.cons_append, List.cons.injEq] at heq
          obtain ⟨hxy, hrest⟩ := heq
          obtain ⟨h1, h2⟩ := ih ys r₁ r₂ (fun c hc => ha c (by simp [hc]))
            (fun c hc => hb c (by simp [hc])) hrest
          exact ⟨by rw [hxy, h1], h2⟩

theorem mkTx_inj (p o₁ o₂ t₁ t₂ : String)
    (h₁ : ∀ c ∈ o₁.data, c ≠ ':') (h₂ : ∀ c ∈ o₂.data, c ≠ ':')
    (heq : mkTx p o₁ t₁ = mkTx p o₂ t₂) : o₁ = o₂ ∧ t₁ = t₂ := by
  have hd : (mkTx p o₁ t₁).data = (mkTx p o₂ t₂).data := by rw [heq]
  rw [mkTx_data, mkTx_data] at hd
  have hd2 := List.append_cancel_left hd
  simp only [List.cons.injEq, true_and] at hd2
  obtain ⟨ho, ht⟩ := colon_split o₁.data o₂.data t₁.data t₂.data h₁ h₂ hd2
  exact ⟨String.ext ho, String.ext ht⟩

/-! Further projection facts used by the claim theorems. -/

theorem getD_append_dC_st (cells : List PCell) (i : Nat) :
    ((cells ++ [dC]).getD i dC).st = (cells.getD i dC).st := by
  by_cases hi : i < cells.length
  · rw [List.getD_append _ _ dC i hi]
  · have h1 : cells.length ≤ i := by omega
    rw [List.getD_append_right _ _ dC i h1, List.getD_eq_default cells dC h1]
    cases hs : i - cells.length with
    | zero => rfl
    | succ m =>
        rw [List.getD_eq_default [dC] dC (by simp [hs])]

theorem loadResultStep_loadProm_isPend_false (s : PoolState) (name : String)
    (pat : Option String) (cd ppg : Bool) (err : String)
    (hnp : s.loadProm.isPend = false) :
    (loadResultStep s true name pat cd ppg err).handle = s.handle := by
  unfold loadResultStep
  simp [hnp]

theorem stepCore_handle_stable (s : PoolState) (e : Ev) (hd : Handle)
    (hl : LoadWF s) (hh : s.handle = some hd) : (stepCore s e).handle = some hd := by
  cases e with
  | invokeOp op time =>
      show (invokeOpStep s op time).handle = some hd
      by_cases hop : hasOp hd op = true
      · rw [invokeOpStep_present s op time hd hh hop]; exact hh
      · rw [invokeOpStep_absent s op time hd hh (by simpa using hop)]; exact hh
  | msgLoadResult success name pat cd ppg err =>
      show (loadResultStep s success name pat cd ppg err).handle = some hd
      by_cases hs : success = true
      · subst hs
        have hnp : s.loadProm ≠ .pend := hl (by rw [hh]; rfl)
        have hnp' : s.loadProm.isPend = false := by
          cases hp : s.loadProm <;> simp_all [PromState.isPend]
        rw [loadResultStep_loadProm_isPend_false s name pat cd ppg err hnp']
        exact hh
      · unfold loadResultStep
        rw [if_neg hs]
        exact hh
  | msgResult op tx success payload =>
      show (resultStep s tx success payload).handle = some hd
      cases hf : regLookup s.registry tx with
      | none => rw [resultStep_unknown s tx success payload hf]; exact hh
      | some i => rw [resultStep_found s tx success payload i hf]; exact hh
  | workerExit code =>
      show (exitStep s code).handle = some hd
      by_cases hx : s.exitAttached = true
      · rw [exitStep_attached s code hx]; exact hh
      · rw [exitStep_detached s code (by simpa using hx)]; exact hh
  | invokeShutdown => exact hh

theorem step_handle_stable (s : PoolState) (e : Ev) (hd : Handle)
    (hl : LoadWF s) (hh : s.handle = some hd) : (step s e).handle = some hd := by
  unfold step
  by_cases hcr : s.crashed.isSome = true
  · rw [if_pos hcr]; exact hh
  · rw [if_neg hcr]
    by_cases hc1 : (stepCore s e).crashed.isSome = true
    · rw [if_pos hc1]; exact stepCore_handle_stable s e hd hl hh
    · rw [if_neg hc1, checkWaits_handle]
      exact stepCore_handle_stable s e hd hl hh

theorem foldl_handle_stable (es : List Ev) : ∀ (s : PoolState) (hd : Handle),
    Inv s → s.handle = some hd → (es.foldl step s).handle = some hd := by
  induction es with
  | nil => intro s hd _ hh; exact hh
  | cons e rest ih =>
      intro s hd hinv hh
      exact ih (step s e) hd (step_inv s e hinv) (step_handle_stable s e hd hinv.2.2.2 hh)

/-! Per-handler projection facts and a step-unfolding helper. -/

theorem loadResultStep_crashed (s : PoolState) (success : Bool) (name : String)
    (pat : Option String) (cd ppg : Bool) (err : String) :
    (loadResultStep s success name pat cd ppg err).crashed = s.crashed := by
  unfold loadResultStep
  by_cases hs : success = true
  · rw [if_pos hs]
  · rw [if_neg hs]

theorem loadResultStep_cells (s : PoolState) (success : Bool) (name : String)
    (pat : Option String) (cd ppg : Bool) (err : String) :
    (loadResultStep s success name pat cd ppg err).cells = s.cells := by
  unfold loadResultStep
  by_cases hs : success = true
  · rw [if_pos hs]
  · rw [if_neg hs]

theorem exitStep_crashed (s : PoolState) (code : Int) :
    (exitStep s code).crashed = s.crashed := by
  by_cases hx : s.exitAttached = true
  · rw [exitStep_attached s code hx]
  · rw [exitStep_detached s code (by simpa using hx)]

theorem exitStep_loadProm (s : PoolState) (code : Int) :
    (exitStep s code).loadProm = s.loadProm := by
  by_cases hx : s.exitAttached = true
  · rw [exitStep_attached s code hx]
  · rw [exitStep_detached s code (by simpa using hx)]

theorem exitStep_overwrote (s : PoolState) (code : Int) :
    (exitStep s code).overwrote = s.overwrote := by
  by_cases hx : s.exitAttached = true
  · rw [exitStep_attached s code hx]
  · rw [exitStep_detached s code (by simpa using hx)]

theorem step_not_crashed (s : PoolState) (e : Ev) (hcr : s.crashed = none)
    (hc1 : (stepCore s e).crashed = none) :
    step s e = checkWaits (stepCore s e) := by
  unfold step
  rw [if_neg (by simp [hcr]), if_neg (by simp [hc1])]

theorem step_crashed_frozen (s : PoolState) (e : Ev) (hcr : s.crashed.isSome = true) :
    step s e = s := by
  unfold step
  rw [if_pos hcr]

/-! Claim theorems. -/

/-- C2: the specification demands that a result envelope whose transaction
identifier is unknown must be logged/dropped without throwing from the
message handler.  The code instead destructures `pending.get(tx)`, which is
`undefined` for an unknown identifier, so the handler throws a `TypeError`
out of the shared listener and takes the host down: after a
`createNodesResult` for the unknown transaction `"unknown-tx"`, the model's
crash marker is set. -/
theorem c2_unknown_tx_crashes :
    (execT 7 [loadOK "p", .msgResult .createNodes "unknown-tx" true "v"]).crashed =
      some "TypeError: cannot destructure resolver of undefined" := by decide

/-- C4 counterexample: if the worker exits before `load-result` arrives,
the promise returned by `loadRemoteNxPlugin` is NOT rejected — the exit
handler only rejects entries of `pendingPromises`, which never contains the
load promise — so it is still pending after the exit event, contrary to the
claim. -/
theorem c4_exit_before_load_hangs_cex :
    (execT 7 [.workerExit 1]).loadProm = PromState.pend
    ∧ (execT 7 [.workerExit 1]).exitAttached = true := by decide

/-- C3 counterexample: invoking an operation produces the `worker.send`
strictly before the `pending.set` registration — `registerPendingPromise`
runs `callback()` inside the `Promise` executor and only afterwards
executes `pending.set(tx, ...)` — so the claim that the transaction is
registered strictly before the request is sent is false. -/
theorem c3_send_before_register_cex :
    (execT 7 [loadOK "p", .invokeOp .createDependencies "1"]).log =
      [Act.send "p:createDependencies:1", Act.register "p:createDependencies:1"]
    ∧ List.indexOf (Act.send "p:createDependencies:1")
        (execT 7 [loadOK "p", .invokeOp .createDependencies "1"]).log <
      List.indexOf (Act.register "p:createDependencies:1")
        (execT 7 [loadOK "p", .invokeOp .createDependencies "1"]).log := by decide

/-- C9 counterexample: two invocations of the same operation that observe
the same `performance.now()` value build identical transaction identifiers:
two distinct transactions (two promise cells) are created, the same
identifier is sent twice, and the second `pending.set` overwrites the live
entry of the first. -/
theorem c9_tx_collision_cex :
    (execT 7 [loadOK "p", .invokeOp .createDependencies "5",
        .invokeOp .createDependencies "5"]).overwrote = true
    ∧ (execT 7 [loadOK "p", .invokeOp .createDependencies "5",
        .invokeOp .createDependencies "5"]).cells.length = 2
    ∧ List.count (Act.send "p:createDependencies:5")
        (execT 7 [loadOK "p", .invokeOp .createDependencies "5",
          .invokeOp .createDependencies "5"]).log = 2 := by decide

/-- C1 counterexample: after shutdown has detached the exit handler, a
worker exit settles nothing: the transaction opened before shutdown has
received zero resolver/rejector calls and its promise is still pending even
though the worker is gone — so "exactly one settlement, never zero" and
"none left unsettled once the worker exits" fail on this trace. -/
theorem c1_unsettled_after_shutdown_exit_cex :
    ((execT 7 [loadOK "p", .invokeOp .createDependencies "1", .invokeShutdown,
        .workerExit 1]).cells.getD 0 dC).att = 0
    ∧ ((execT 7 [loadOK "p", .invokeOp .createDependencies "1", .invokeShutdown,
        .workerExit 1]).cells.getD 0 dC).st = PromState.pend := by decide

/-- C8 counterexample: a worker exit that happens after shutdown detached
the exit handler rejects nothing: the transaction is still registered and
its promise still pending after the exit event, so the claim does not hold
for every exit with transactions registered. -/
theorem c8_detached_exit_no_reject_cex :
    (execT 7 [loadOK "p", .invokeOp .createDependencies "1", .invokeShutdown,
        .workerExit 1]).registry = [("p:createDependencies:1", 0)]
    ∧ ((execT 7 [loadOK "p", .invokeOp .createDependencies "1", .invokeShutdown,
        .workerExit 1]).cells.getD 0 dC).st.isRejected = false := by decide

/-- C5 counterexample: when a transaction pending at shutdown time is
rejected, `Promise.all` rejects, the `await` in `shutdownPluginWorker`
throws, and `worker.kill('SIGINT')` is never executed: here every pending
transaction has settled, the shutdown's await has aborted, and no SIGINT
was ever sent — contradicting "only after all of them have settled sends
the termination signal (SIGINT) to the worker process". -/
theorem c5_rejected_pending_skips_kill_cex :
    (execT 7 [loadOK "p", .invokeOp .createDependencies "1", .invokeShutdown,
        .msgResult .createDependencies "p:createDependencies:1" false "boom"]).sigintSent = false
    ∧ (execT 7 [loadOK "p", .invokeOp .createDependencies "1", .invokeShutdown,
        .msgResult .createDependencies "p:createDependencies:1" false "boom"]).waits =
      [⟨[0], WaitStatus.aborted⟩]
    ∧ ((execT 7 [loadOK "p", .invokeOp .createDependencies "1", .invokeShutdown,
        .msgResult .createDependencies "p:createDependencies:1" false "boom"]).cells.getD 0 dC).st =
      PromState.rejected "boom" := by decide

/-- C6 counterexample: shutdown is not idempotent.  After a first shutdown
whose drain was aborted by a rejected pending transaction (no SIGINT sent),
a second invocation of the same shutdown function awaits the now-empty
registry and DOES send SIGINT — an additional effect on the worker beyond
the first invocation. -/
theorem c6_second_shutdown_extra_kill_cex :
    (execT 7 [loadOK "p", .invokeOp .createDependencies "1", .invokeShutdown,
        .msgResult .createDependencies "p:createDependencies:1" false "boom"]).sigintSent = false
    ∧ (execT 7 [loadOK "p", .invokeOp .createDependencies "1", .invokeShutdown,
        .msgResult .createDependencies "p:createDependencies:1" false "boom",
        .invokeShutdown]).sigintSent = true := by decide

/-- C4 (amended): the future returned by `loadRemoteNxPlugin` resolves to
the Remote Plugin Handle on a successful `load-result` and rejects with the
reported error on a failed `load-result`; but a worker exit does NOT settle
it — the exit handler only rejects `pendingPromises`, which never contains
the load promise — so a worker that exits before loading completes leaves
the load caller suspended forever. -/
theorem c4_load_future_amended (s : PoolState) (name err : String) (pat : Option String)
    (cd ppg : Bool) (code : Int) (hcr : s.crashed = none) (hp : s.loadProm = PromState.pend) :
    (step s (.msgLoadResult true name pat cd ppg err)).loadProm = PromState.fulfilled "[RemotePlugin]"
    ∧ (step s (.msgLoadResult true name pat cd ppg err)).handle =
        some (buildHandle name pat cd ppg)
    ∧ (step s (.msgLoadResult false name pat cd ppg err)).loadProm = PromState.rejected err
    ∧ (step s (.workerExit code)).loadProm = s.loadProm := by
  have hT : stepCore s (.msgLoadResult true name pat cd ppg err) =
      loadResultStep s true name pat cd ppg err := rfl
  have hF : stepCore s (.msgLoadResult false name pat cd ppg err) =
      loadResultStep s false name pat cd ppg err := rfl
  have hX : stepCore s (.workerExit code) = exitStep s code := rfl
  have hsT := step_not_crashed s (.msgLoadResult true name pat cd ppg err) hcr
    (by rw [hT, loadResultStep_crashed]; exact hcr)
  have hsF := step_not_crashed s (.msgLoadResult false name pat cd ppg err) hcr
    (by rw [hF, loadResultStep_crashed]; exact hcr)
  have hsX := step_not_crashed s (.workerExit code) hcr
    (by rw [hX, exitStep_crashed]; exact hcr)
  refine ⟨?_, ?_, ?_, ?_⟩
  · rw [hsT, checkWaits_loadProm, hT]
    unfold loadResultStep
    rw [if_pos rfl]
    show settlePS s.loadProm (PromState.fulfilled "[RemotePlugin]") = _
    rw [hp, settlePS_of_pend]
  · rw [hsT, checkWaits_handle, hT]
    unfold loadResultStep
    rw [if_pos rfl]
    show (if s.loadProm.isPend then some (buildHandle name pat cd ppg) else s.handle) = _
    rw [hp]
    rfl
  · rw [hsF, checkWaits_loadProm, hF]
    unfold loadResultStep
    rw [if_neg (by simp)]
    show settlePS s.loadProm (PromState.rejected err) = _
    rw [hp, settlePS_of_pend]
  · rw [hsX, checkWaits_loadProm, hX, exitStep_loadProm]

/-- C4 amended witness: concrete instances of all three behaviours. -/
theorem c4_load_future_amended_wit :
    (step (execT 7 []) (.msgLoadResult true "demo" none true false "")).loadProm =
      PromState.fulfilled "[RemotePlugin]"
    ∧ (step (execT 7 []) (.msgLoadResult false "demo" none true false "nope")).loadProm =
      PromState.rejected "nope"
    ∧ (step (execT 7 []) (.workerExit 1)).loadProm = (execT 7 []).loadProm := by
  have h := c4_load_future_amended (execT 7 []) "demo" "" none true false 1
    (by decide) (by decide)
  have h2 := c4_load_future_amended (execT 7 []) "demo" "nope" none true false 1
    (by decide) (by decide)
  exact ⟨h.1, h2.2.2.1, h.2.2.2⟩

/-- C3 (amended): the request is sent before `pending.set` runs, but both
happen inside the same synchronous step, so once the invocation step has
finished the transaction is registered under its identifier, and a result
message processed at any later point correlates correctly: it does not
throw and settles the transaction's promise with the reported outcome. -/
theorem c3_registration_same_step_amended (s : PoolState) (op : OpKind) (time : String)
    (b : Bool) (v : String) (hd : Handle)
    (hcr : s.crashed = none) (hh : s.handle = some hd) (hop : hasOp hd op = true) :
    regLookup (step s (.invokeOp op time)).registry
        (mkTx (s.pluginNameVar.getD "undefined") op.opName time) = some s.cells.length
    ∧ (step (step s (.invokeOp op time))
        (.msgResult op (mkTx (s.pluginNameVar.getD "undefined") op.opName time) b v)).crashed =
      none
    ∧ ((step (step s (.invokeOp op time))
        (.msgResult op (mkTx (s.pluginNameVar.getD "undefined") op.opName time) b v)).cells.getD
          s.cells.length dC).st =
      (if b then PromState.fulfilled v else PromState.rejected v) := by
  have hI : stepCore s (.invokeOp op time) = invokeOpStep s op time := rfl
  have hc1 : (invokeOpStep s op time).crashed = none := by
    rw [invokeOpStep_present s op time hd hh hop]
    exact hcr
  have hs1 := step_not_crashed s (.invokeOp op time) hcr (by rw [hI]; exact hc1)
  rw [hs1, hI]
  have hreg : (checkWaits (invokeOpStep s op time)).registry =
      regSet s.registry (mkTx (s.pluginNameVar.getD "undefined") op.opName time)
        s.cells.length := by
    rw [checkWaits_registry, invokeOpStep_present s op time hd hh hop]
  have hcell : (checkWaits (invokeOpStep s op time)).cells = s.cells ++ [dC] := by
    rw [checkWaits_cells, invokeOpStep_present s op time hd hh hop]
  have hlook : regLookup (checkWaits (invokeOpStep s op time)).registry
      (mkTx (s.pluginNameVar.getD "undefined") op.opName time) = some s.cells.length := by
    rw [hreg]
    exact regLookup_regSet_self _ _ _
  refine ⟨hlook, ?_, ?_⟩
  · have hM : stepCore (checkWaits (invokeOpStep s op time))
        (.msgResult op (mkTx (s.pluginNameVar.getD "undefined") op.opName time) b v) =
        resultStep (checkWaits (invokeOpStep s op time))
          (mkTx (s.pluginNameVar.getD "undefined") op.opName time) b v := rfl
    have hcw : (checkWaits (invokeOpStep s op time)).crashed = none := by
      rw [checkWaits_crashed]; exact hc1
    have hrc : (resultStep (checkWaits (invokeOpStep s op time))
        (mkTx (s.pluginNameVar.getD "undefined") op.opName time) b v).crashed = none := by
      rw [resultStep_found _ _ _ _ s.cells.length hlook]
      exact hcw
    rw [step_not_crashed _ _ hcw (by rw [hM]; exact hrc), checkWaits_crashed, hM]
    exact hrc
  · have hM : stepCore (checkWaits (invokeOpStep s op time))
        (.msgResult op (mkTx (s.pluginNameVar.getD "undefined") op.opName time) b v) =
        resultStep (checkWaits (invokeOpStep s op time))
          (mkTx (s.pluginNameVar.getD "undefined") op.opName time) b v := rfl
    have hcw : (checkWaits (invokeOpStep s op time)).crashed = none := by
      rw [checkWaits_crashed]; exact hc1
    have hrc : (resultStep (checkWaits (invokeOpStep s op time))
        (mkTx (s.pluginNameVar.getD "undefined") op.opName time) b v).crashed = none := by
      rw [resultStep_found _ _ _ _ s.cells.length hlook]
      exact hcw
    rw [step_not_crashed _ _ hcw (by rw [hM]; exact hrc), checkWaits_cells, hM,
      resultStep_found _ _ _ _ s.cells.length hlook]
    show ((settleAt (checkWaits (invokeOpStep s op time)).cells s.cells.length
        (if b then PromState.fulfilled v else PromState.rejected v)).getD s.cells.length dC).st = _
    rw [hcell]
    rw [getD_settleAt_self _ _ _ (by simp)]
    rw [List.getD_append_right _ _ dC s.cells.length (le_refl _)]
    rw [show s.cells.length - s.cells.length = 0 from by omega]
    rw [settleCell_of_pend _ _ (by rfl)]

/-- C3 amended witness: after a concrete invocation, the transaction is
registered and an immediately following result message settles it. -/
theorem c3_registration_same_step_amended_wit :
    regLookup (step (execT 7 [loadOK "p"]) (.invokeOp .createDependencies "1")).registry
        (mkTx "p" "createDependencies" "1") = some 0
    ∧ ((step (step (execT 7 [loadOK "p"]) (.invokeOp .createDependencies "1"))
        (.msgResult .createDependencies (mkTx "p" "createDependencies" "1") true "deps")).cells.getD
          0 dC).st = PromState.fulfilled "deps" := by
  have h := c3_registration_same_step_amended (execT 7 [loadOK "p"]) .createDependencies "1"
      true "deps" (buildHandle "p" (some "**/*") true true) (by decide) (by decide) (by decide)
  exact ⟨h.1, h.2.2⟩

/-- C7: the handle built from a successful `load-result` exposes
`createNodes` exactly when the reported pattern is truthy (carrying that
pattern), `createDependencies` exactly when `hasCreateDependencies`, and
`processProjectGraph` exactly when `hasProcessProjectGraph`; invoking an
operation the handle does not expose is calling `undefined` (a `TypeError`,
not a no-op); and once the handle exists its shape never changes for the
rest of the run. -/
theorem c7_operation_gating (name : String) (pat : Option String) (cd ppg : Bool)
    (s : PoolState) (op : OpKind) (time : String) (hd : Handle)
    (pid : Nat) (es es' : List Ev) :
    ((buildHandle name pat cd ppg).createNodes = (if jsTruthy pat then pat else none)
      ∧ (buildHandle name pat cd ppg).createNodes.isSome = jsTruthy pat
      ∧ (buildHandle name pat cd ppg).createDependencies = cd
      ∧ (buildHandle name pat cd ppg).processProjectGraph = ppg)
    ∧ (s.handle = some hd → hasOp hd op = false →
        (invokeOpStep s op time).crashed =
          some "TypeError: plugin operation is not a function")
    ∧ ((execT pid es).handle = some hd → (execT pid (es ++ es')).handle = some hd) := by
  refine ⟨⟨rfl, ?_, rfl, rfl⟩, ?_, ?_⟩
  · show (if jsTruthy pat then pat else none).isSome = jsTruthy pat
    by_cases hj : jsTruthy pat = true
    · rw [if_pos hj]
      cases pat with
      | none => simp [jsTruthy] at hj
      | some str => simp [hj]
    · rw [if_neg hj]
      simp only [Option.isSome_none]
      exact (Bool.not_eq_true _ ▸ hj : jsTruthy pat = false).symm
  · intro hh hop
    rw [invokeOpStep_absent s op time hd hh hop]
  · intro hh
    show ((es ++ es').foldl step (initState pid)).handle = some hd
    rw [List.foldl_append]
    exact foldl_handle_stable es' (execT pid es) hd (inv_exec pid es) hh

/-- C7 witness: a `load-result` with no `createNodes` pattern and
`hasCreateDependencies: false` yields a handle with both operations absent,
invoking the absent operation crashes rather than no-ops, and the handle
survives later events unchanged. -/
theorem c7_operation_gating_wit :
    (buildHandle "demo" none false true).createNodes = none
    ∧ (buildHandle "demo" none false true).createDependencies = false
    ∧ (invokeOpStep (execT 7 [Ev.msgLoadResult true "demo" none false true ""])
        .createDependencies "1").crashed =
      some "TypeError: plugin operation is not a function"
    ∧ (execT 7 ([Ev.msgLoadResult true "demo" none false true ""] ++ [.workerExit 0])).handle =
      some (buildHandle "demo" none false true) := by
  have h := c7_operation_gating "demo" none false true
      (execT 7 [Ev.msgLoadResult true "demo" none false true ""]) .createDependencies "1"
      (buildHandle "demo" none false true) 7 [Ev.msgLoadResult true "demo" none false true ""]
      [.workerExit 0]
  exact ⟨h.1.1, h.1.2.2.1, h.2.1 (by decide) (by decide), h.2.2 (by decide)⟩

/-- C10: the shutdown function first runs `worker.off('exit', exitHandler)`
and only then starts awaiting the pending promises (the shutdown step
detaches the handler while leaving every cell untouched, with the `offExit`
effect logged before `awaitPend`); once detached, a worker exit settles and
removes nothing; and with the handler detached the only event that can
change the settlement state of an existing cell is an inbound result
message. -/
theorem c10_shutdown_detaches_exit (s : PoolState) (code : Int) (e : Ev)
    (hcr : s.crashed = none) :
    (step s .invokeShutdown = checkWaits (shutdownStep s)
      ∧ (step s .invokeShutdown).exitAttached = false
      ∧ (step s .invokeShutdown).cells = s.cells
      ∧ (step s .invokeShutdown).registry = s.registry
      ∧ (step s .invokeShutdown).log =
          s.log ++ [Act.offExit, Act.clearCache, Act.awaitPend, Act.delCleanup])
    ∧ (s.exitAttached = false →
        (step s (.workerExit code)).cells = s.cells
        ∧ (step s (.workerExit code)).registry = s.registry)
    ∧ (s.exitAttached = false →
        ∀ i, ((step s e).cells.getD i dC).st ≠ (s.cells.getD i dC).st →
          ∃ op tx b v, e = Ev.msgResult op tx b v) := by
  have hS : stepCore s .invokeShutdown = shutdownStep s := rfl
  have hsS := step_not_crashed s .invokeShutdown hcr (by rw [hS]; exact hcr)
  have hX : stepCore s (.workerExit code) = exitStep s code := rfl
  refine ⟨⟨by rw [hsS, hS], ?_, ?_, ?_, ?_⟩, ?_, ?_⟩
  · rw [hsS, hS, checkWaits_exitAttached]; rfl
  · rw [hsS, hS, checkWaits_cells]; rfl
  · rw [hsS, hS, checkWaits_registry]; rfl
  · rw [hsS, hS, checkWaits_log]; rfl
  · intro hx
    have hsX := step_not_crashed s (.workerExit code) hcr (by rw [hX, exitStep_crashed]; exact hcr)
    rw [hsX, hX, checkWaits_cells, checkWaits_registry, exitStep_detached s code hx]
    exact ⟨rfl, rfl⟩
  · intro hx i hne
    cases e with
    | msgResult op tx b v => exact ⟨op, tx, b, v, rfl⟩
    | invokeOp op time =>
        exfalso
        apply hne
        cases hh : s.handle with
        | none =>
            have hc1 : (stepCore s (.invokeOp op time)).crashed.isSome = true := by
              show (invokeOpStep s op time).crashed.isSome = true
              rw [invokeOpStep_no_handle s op time hh]
              rfl
            unfold step
            rw [if_neg (by simp [hcr]), if_pos hc1]
            show ((invokeOpStep s op time).cells.getD i dC).st = _
            rw [invokeOpStep_no_handle s op time hh]
        | some hd =>
            by_cases hop : hasOp hd op = true
            · have hc1 : (invokeOpStep s op time).crashed = none := by
                rw [invokeOpStep_present s op time hd hh hop]; exact hcr
              rw [step_not_crashed s (.invokeOp op time) hcr hc1, checkWaits_cells]
              show ((invokeOpStep s op time).cells.getD i dC).st = _
              rw [invokeOpStep_present s op time hd hh hop]
              exact getD_append_dC_st s.cells i
            · have hc1 : (stepCore s (.invokeOp op time)).crashed.isSome = true := by
                show (invokeOpStep s op time).crashed.isSome = true
                rw [invokeOpStep_absent s op time hd hh (by simpa using hop)]
                rfl
              unfold step
              rw [if_neg (by simp [hcr]), if_pos hc1]
              show ((invokeOpStep s op time).cells.getD i dC).st = _
              rw [invokeOpStep_absent s op time hd hh (by simpa using hop)]
    | msgLoadResult success name pat cd ppg err =>
        exfalso
        apply hne
        have hc1 : (stepCore s (.msgLoadResult success name pat cd ppg err)).crashed = none := by
          show (loadResultStep s success name pat cd ppg err).crashed = none
          rw [loadResultStep_crashed]; exact hcr
        rw [step_not_crashed s (.msgLoadResult success name pat cd ppg err) hcr hc1,
          checkWaits_cells]
        show ((loadResultStep s success name pat cd ppg err).cells.getD i dC).st = _
        rw [loadResultStep_cells]
    | workerExit c =>
        exfalso
        apply hne
        have hc1 : (stepCore s (.workerExit c)).crashed = none := by
          show (exitStep s c).crashed = none
          rw [exitStep_crashed]; exact hcr
        rw [step_not_crashed s (.workerExit c) hcr hc1, checkWaits_cells]
        show ((exitStep s c).cells.getD i dC).st = _
        rw [exitStep_detached s c hx]
    | invokeShutdown =>
        exfalso
        apply hne
        rw [hsS, checkWaits_cells, hS]
        rfl

/-- C10 witness: concrete post-shutdown behaviour — the handler is
detached, a later exit changes nothing, while a result message still
settles the pending transaction. -/
theorem c10_shutdown_detaches_exit_wit :
    (step (execT 7 [loadOK "p", .invokeOp .createDependencies "1"]) .invokeShutdown).exitAttached =
      false
    ∧ (step (execT 7 [loadOK "p", .invokeOp .createDependencies "1", .invokeShutdown])
        (.workerExit 9)).cells =
      (execT 7 [loadOK "p", .invokeOp .createDependencies "1", .invokeShutdown]).cells := by
  have h1 := c10_shutdown_detaches_exit
    (execT 7 [loadOK "p", .invokeOp .createDependencies "1"]) 9 .invokeShutdown (by decide)
  have h2 := c10_shutdown_detaches_exit
    (execT 7 [loadOK "p", .invokeOp .createDependencies "1", .invokeShutdown]) 9 .invokeShutdown
    (by decide)
  exact ⟨h1.1.2.1, (h2.2.1 (by decide)).1⟩

/-- C8 (amended): provided the exit handler is still attached (shutdown has
not run), a worker exit rejects every transaction still registered, each
with the error message built by `createWorkerExitHandler` — naming the
plugin (or the process id when the name is unknown) and the exit code — and
empties the registry. -/
theorem c8_exit_rejects_all_amended (pid : Nat) (es : List Ev) (code : Int)
    (hcr : (execT pid es).crashed = none)
    (hx : (execT pid es).exitAttached = true) :
    (step (execT pid es) (.workerExit code)).registry = []
    ∧ ∀ tx i, (tx, i) ∈ (execT pid es).registry →
        ((step (execT pid es) (.workerExit code)).cells.getD i dC).st =
          PromState.rejected
            (mkExitMsg ((execT pid es).pluginNamesEntry.getD (toString (execT pid es).pid))
              code) := by
  obtain ⟨⟨hrb, hrk, hrs⟩, _, _, _⟩ := inv_exec pid es
  obtain ⟨hkeep, hset, hother⟩ :=
    exitDrain_spec
      (mkExitMsg ((execT pid es).pluginNamesEntry.getD (toString (execT pid es).pid)) code)
      (execT pid es).registry (execT pid es).cells hrb hrs
  have hX : stepCore (execT pid es) (.workerExit code) = exitStep (execT pid es) code := rfl
  have hs := step_not_crashed (execT pid es) (.workerExit code) hcr
    (by rw [hX, exitStep_crashed]; exact hcr)
  constructor
  · rw [hs, checkWaits_registry, hX, exitStep_attached _ code hx]
    exact hkeep
  · intro tx i hmem
    rw [hs, checkWaits_cells, hX, exitStep_attached _ code hx]
    have := hset (tx, i) hmem
    simp only at this
    rw [this]

/-- C8 amended witness: one registered transaction, worker exits with code
3, the future is rejected with the exact synthesized message. -/
theorem c8_exit_rejects_all_amended_wit :
    (step (execT 7 [loadOK "p", .invokeOp .createDependencies "1"]) (.workerExit 3)).registry = []
    ∧ ((step (execT 7 [loadOK "p", .invokeOp .createDependencies "1"])
        (.workerExit 3)).cells.getD 0 dC).st =
      PromState.rejected "Plugin worker p exited unexpectedly with code 3" := by
  have h := c8_exit_rejects_all_amended 7 [loadOK "p", .invokeOp .createDependencies "1"] 3
    (by decide) (by decide)
  exact ⟨h.1, h.2 "p:createDependencies:1" 0 (by decide)⟩

/-- C1 (amended): in any run, every transaction's promise receives at most
one resolver/rejector call; and provided no identifier collision overwrote
a live registration and the exit handler is still attached (shutdown has
not run) when the worker exits, every transaction ever created is settled
exactly once — by a matching success result, a matching failure result, or
the worker-exit rejection — is removed from the registry exactly once, and
none is left pending after the exit; the registry is then empty. -/
theorem c1_single_settlement_amended (pid : Nat) (es : List Ev) (code : Int)
    (hcr : (execT pid es).crashed = none)
    (how : (execT pid es).overwrote = false)
    (hx : (execT pid es).exitAttached = true) :
    (∀ i, i < (execT pid es).cells.length → ((execT pid es).cells.getD i dC).att ≤ 1)
    ∧ (step (execT pid es) (.workerExit code)).registry = []
    ∧ (∀ i, i < (step (execT pid es) (.workerExit code)).cells.length →
        ((step (execT pid es) (.workerExit code)).cells.getD i dC).st ≠ PromState.pend
        ∧ ((step (execT pid es) (.workerExit code)).cells.getD i dC).att = 1
        ∧ ((step (execT pid es) (.workerExit code)).cells.getD i dC).rem = 1) := by
  have hinv := inv_exec pid es
  obtain ⟨⟨hrb, hrk, hrs⟩, hcwf, _, _⟩ := hinv
  have hX : stepCore (execT pid es) (.workerExit code) = exitStep (execT pid es) code := rfl
  have hs := step_not_crashed (execT pid es) (.workerExit code) hcr
    (by rw [hX, exitStep_crashed]; exact hcr)
  obtain ⟨hkeep, _, _⟩ :=
    exitDrain_spec
      (mkExitMsg ((execT pid es).pluginNamesEntry.getD (toString (execT pid es).pid)) code)
      (execT pid es).registry (execT pid es).cells hrb hrs
  have hreg : (step (execT pid es) (.workerExit code)).registry = [] := by
    rw [hs, checkWaits_registry, hX, exitStep_attached _ code hx]
    exact hkeep
  refine ⟨?_, hreg, ?_⟩
  · intro i hi
    by_cases hex : ∃ tx, (tx, i) ∈ (execT pid es).registry
    · rw [(hcwf how i hi).1 hex]
      decide
    · have := (hcwf how i hi).2 (fun tx hmem => hex ⟨tx, hmem⟩)
      omega
  · intro i hi
    have hinv' := step_inv (execT pid es) (.workerExit code) (inv_exec pid es)
    obtain ⟨_, hcwf', _, _⟩ := hinv'
    have how' : (step (execT pid es) (.workerExit code)).overwrote = false := by
      rw [hs, checkWaits_overwrote, hX, exitStep_overwrote]
      exact how
    refine (hcwf' how' i hi).2 ?_
    intro tx hmem
    rw [hreg] at hmem
    simp at hmem

/-- C1 amended witness: a run with one transaction, then a crash — the
registry drains and the cell is settled exactly once. -/
theorem c1_single_settlement_amended_wit :
    (step (execT 7 [loadOK "p", .invokeOp .createDependencies "1"]) (.workerExit 2)).registry = []
    ∧ ((step (execT 7 [loadOK "p", .invokeOp .createDependencies "1"])
        (.workerExit 2)).cells.getD 0 dC).att = 1 := by
  have h := c1_single_settlement_amended 7 [loadOK "p", .invokeOp .createDependencies "1"] 2
    (by decide) (by decide) (by decide)
  exact ⟨h.2.1, (h.2.2 0 (by decide)).2.1⟩

/-- C5 (amended): the SIGINT flag is only ever set by an
`await Promise.all(...)` that resumed normally, which requires every
promise pending at that shutdown call to be FULFILLED — so the termination
signal is sent only after all of them settled (a rejected pending instead
aborts the await and the kill line is skipped); and invoking shutdown never
settles or rejects any outstanding transaction itself. -/
theorem c5_drain_before_kill_amended (pid : Nat) (es : List Ev) :
    ((execT pid es).sigintSent = true →
      ∃ w ∈ (execT pid es).waits, w.status = WaitStatus.killed)
    ∧ (∀ w ∈ (execT pid es).waits, w.status = WaitStatus.killed →
        ∀ i ∈ w.snapshot, ((execT pid es).cells.getD i dC).st.isFulfilled = true)
    ∧ (step (execT pid es) .invokeShutdown).cells = (execT pid es).cells := by
  obtain ⟨_, _, ⟨hw, hsig⟩, _⟩ := inv_exec pid es
  refine ⟨hsig, ?_, ?_⟩
  · intro w hwmem hk i hi
    exact (hw w hwmem).2 hk i hi
  · by_cases hcr : (execT pid es).crashed.isSome = true
    · rw [step_crashed_frozen _ _ hcr]
    · have hS : stepCore (execT pid es) .invokeShutdown = shutdownStep (execT pid es) := rfl
      have hcr' : (execT pid es).crashed = none := by
        cases hc : (execT pid es).crashed with
        | none => rfl
        | some m => rw [hc] at hcr; simp at hcr
      rw [step_not_crashed _ _ hcr' (by rw [hS]; exact hcr'), checkWaits_cells, hS]
      rfl

/-- C5 amended witness: a shutdown whose single pending transaction
fulfils — the await resumes, SIGINT is sent, and the snapshotted promise is
indeed fulfilled. -/
theorem c5_drain_before_kill_amended_wit :
    ((execT 7 [loadOK "p", .invokeOp .createDependencies "1", .invokeShutdown,
        .msgResult .createDependencies "p:createDependencies:1" true "deps"]).cells.getD 0
      dC).st.isFulfilled = true
    ∧ (execT 7 [loadOK "p", .invokeOp .createDependencies "1", .invokeShutdown,
        .msgResult .createDependencies "p:createDependencies:1" true "deps"]).sigintSent =
      true := by
  have h := c5_drain_before_kill_amended 7 [loadOK "p", .invokeOp .createDependencies "1",
    .invokeShutdown, .msgResult .createDependencies "p:createDependencies:1" true "deps"]
  exact ⟨h.2.1 ⟨[0], WaitStatus.killed⟩ (by decide) (by decide) 0 (by decide), by decide⟩

/-- C6 (amended): after a shutdown that completed its drain and sent SIGINT
(registry empty, cache cleared, handler detached, cleanup deregistered),
invoking the shutdown function again changes none of those observables —
it is idempotent from that state.  (When the first drain was aborted by a
rejected pending, a second invocation is NOT a no-op: it sends the SIGINT
the first skipped, see the counterexample.) -/
theorem c6_shutdown_idempotent_amended (pid : Nat) (es : List Ev)
    (hcr : (execT pid es).crashed = none)
    (hsg : (execT pid es).sigintSent = true)
    (hreg : (execT pid es).registry = [])
    (hx : (execT pid es).exitAttached = false)
    (hce : (execT pid es).cacheEmpty = true)
    (hcl : (execT pid es).cleanupRegistered = false) :
    (step (execT pid es) .invokeShutdown).crashed = (execT pid es).crashed
    ∧ (step (execT pid es) .invokeShutdown).sigintSent = true
    ∧ (step (execT pid es) .invokeShutdown).registry = []
    ∧ (step (execT pid es) .invokeShutdown).cells = (execT pid es).cells
    ∧ (step (execT pid es) .invokeShutdown).exitAttached = false
    ∧ (step (execT pid es) .invokeShutdown).cacheEmpty = true
    ∧ (step (execT pid es) .invokeShutdown).cleanupRegistered = false
    ∧ (step (execT pid es) .invokeShutdown).handle = (execT pid es).handle
    ∧ (step (execT pid es) .invokeShutdown).loadProm = (execT pid es).loadProm
    ∧ (step (execT pid es) .invokeShutdown).overwrote = (execT pid es).overwrote := by
  have hS : stepCore (execT pid es) .invokeShutdown = shutdownStep (execT pid es) := rfl
  have hs := step_not_crashed (execT pid es) .invokeShutdown hcr (by rw [hS]; exact hcr)
  rw [hs, hS]
  refine ⟨rfl, ?_, by rw [checkWaits_registry]; exact hreg, rfl, rfl, rfl, rfl, rfl, rfl, rfl⟩
  show ((shutdownStep (execT pid es)).sigintSent || _) = true
  rw [show (shutdownStep (execT pid es)).sigintSent = (execT pid es).sigintSent from rfl, hsg]
  rw [Bool.true_or]

/-- C6 amended witness: a clean shutdown with nothing pending, then a
second shutdown — every observable is unchanged. -/
theorem c6_shutdown_idempotent_amended_wit :
    (step (execT 7 [loadOK "p", .invokeShutdown]) .invokeShutdown).sigintSent = true
    ∧ (step (execT 7 [loadOK "p", .invokeShutdown]) .invokeShutdown).registry = []
    ∧ (step (execT 7 [loadOK "p", .invokeShutdown]) .invokeShutdown).cells =
      (execT 7 [loadOK "p", .invokeShutdown]).cells := by
  have h := c6_shutdown_idempotent_amended 7 [loadOK "p", .invokeShutdown]
    (by decide) (by decide) (by decide) (by decide) (by decide) (by decide)
  exact ⟨h.2.1, h.2.2.1, h.2.2.2.1⟩

/-- C9 (amended): two transaction identifiers built by the operation
closures for the same worker are distinct whenever the (operation,
timestamp) pairs differ — the operation names contain no `:` so the
decomposition `plugin:operation:timestamp` is unambiguous; but two calls of
the same operation observing an equal `performance.now()` value collide
(see the counterexample). -/
theorem c9_tx_distinct_amended (p o₁ o₂ t₁ t₂ : String)
    (h₁ : ∀ c ∈ o₁.data, c ≠ ':') (h₂ : ∀ c ∈ o₂.data, c ≠ ':')
    (hne : ¬(o₁ = o₂ ∧ t₁ = t₂)) :
    mkTx p o₁ t₁ ≠ mkTx p o₂ t₂ :=
  fun heq => hne (mkTx_inj p o₁ o₂ t₁ t₂ h₁ h₂ heq)

/-- C9 amended witness: distinct timestamps give distinct identifiers,
and distinct operations give distinct identifiers. -/
theorem c9_tx_distinct_amended_wit :
    mkTx "p" "createDependencies" "1" ≠ mkTx "p" "createDependencies" "2"
    ∧ mkTx "p" "createNodes" "1" ≠ mkTx "p" "createDependencies" "1" :=
  ⟨c9_tx_distinct_amended "p" "createDependencies" "createDependencies" "1" "2"
      (by decide) (by decide) (by decide),
   c9_tx_distinct_amended "p" "createNodes" "createDependencies" "1" "1"
      (by decide) (by decide) (by decide)⟩

end PluginPool
